import Mathlib

/-!
Shallow embedding of the idle-timer engine from src/useIdleTimer.tsx.

Times are integer milliseconds.  The React hook's mutable refs and state
become fields of an explicit Engine record; Date.now() becomes an explicit
now parameter; setTimeout becomes a PendingTimer value recording what the
callback will do, when it was armed and with which delay; callback
invocations (onIdle / onActive / onPrompt) are collected in a list of
notifications returned alongside the updated engine.
-/

namespace IdleTimer

/-- The four phases of IdleTimerState ("active" | "prompting" | "idle" | "paused"). -/
inductive Phase where
  | active
  | prompting
  | idle
  | paused
deriving DecidableEq, Repr

/-- What a pending setTimeout callback will do when it fires. -/
inductive TimerTarget where
  | toPrompting
  | toIdle
deriving DecidableEq, Repr

/-- A pending setTimeout: its callback target, the time at which it was armed
and the delay it was armed with.  It fires no earlier than armedAtMs + delayMs. -/
structure PendingTimer where
  target : TimerTarget
  armedAtMs : Int
  delayMs : Int
deriving DecidableEq, Repr

/-- The notification callbacks of the hook. -/
inductive Notif where
  | onIdle
  | onActive
  | onPrompt
deriving DecidableEq, Repr

/-- The timing configuration of useIdleTimer (the fields the engine logic reads). -/
structure Config where
  timeoutMs : Int
  promptBeforeIdleMs : Int
deriving DecidableEq, Repr

/-- The configuration constraints that the hook's validation enforces. -/
def Config.valid (c : Config) : Prop :=
  0 < c.timeoutMs ∧ 0 ≤ c.promptBeforeIdleMs ∧ c.promptBeforeIdleMs < c.timeoutMs

instance (c : Config) : Decidable c.valid := by
  unfold Config.valid
  infer_instance

/-- The validation block at the top of useIdleTimer: the three throw sites,
in source order, as an Except value. -/
def validateOptions (c : Config) : Except String Unit :=
  if c.timeoutMs ≤ 0 then
    Except.error "useIdleTimer: timeoutMs must be greater than 0"
  else if c.promptBeforeIdleMs < 0 then
    Except.error "useIdleTimer: promptBeforeIdleMs must be >= 0"
  else if c.timeoutMs ≤ c.promptBeforeIdleMs then
    Except.error "useIdleTimer: promptBeforeIdleMs must be less than timeoutMs"
  else Except.ok ()

/-- The engine state: React state (state, lastActiveAtMs, lastIdleAtMs) plus the
refs (timerIdRef, deadlineAtMsRef, promptAtMsRef, remainingOnPauseMsRef,
stateBeforePauseRef). -/
structure Engine where
  state : Phase
  timer : Option PendingTimer
  deadlineAtMs : Int
  promptAtMs : Int
  remainingOnPauseMs : Int
  stateBeforePause : Phase
  lastActiveAtMs : Option Int
  lastIdleAtMs : Option Int
deriving DecidableEq, Repr

/-- clearTimer: clearTimeout on the pending timer, if any. -/
def clearTimer (e : Engine) : Engine :=
  { e with timer := none }

/-- enterIdle: clear the timer, set state to idle, record lastIdleAtMs, fire onIdle. -/
def enterIdle (now : Int) (e : Engine) : Engine × List Notif :=
  ({ clearTimer e with state := Phase.idle, lastIdleAtMs := some now }, [Notif.onIdle])

/-- enterPrompting: set state to prompting, fire onPrompt, then schedule the
transition to idle for deadlineAtMs - now if that is positive, else go
directly to idle. -/
def enterPrompting (now : Int) (e : Engine) : Engine × List Notif :=
  let e1 := { e with state := Phase.prompting }
  let remainingToIdle := e1.deadlineAtMs - now
  if 0 < remainingToIdle then
    ({ e1 with timer := some ⟨TimerTarget.toIdle, now, remainingToIdle⟩ },
      [Notif.onPrompt])
  else
    let p := enterIdle now e1
    (p.1, Notif.onPrompt :: p.2)

/-- scheduleNext: clear the timer, then arm the next transition from the given
state: with prompting enabled, toward the prompt (or, past it, enter prompting
or idle immediately); otherwise toward idle. -/
def scheduleNext (cfg : Config) (fromState : Phase) (now : Int) (e : Engine) :
    Engine × List Notif :=
  let e1 := clearTimer e
  if fromState = Phase.active ∧ 0 < cfg.promptBeforeIdleMs then
    let timeToPrompt := e1.promptAtMs - now
    if 0 < timeToPrompt then
      ({ e1 with timer := some ⟨TimerTarget.toPrompting, now, timeToPrompt⟩ }, [])
    else
      let timeToIdle := e1.deadlineAtMs - now
      if 0 < timeToIdle then enterPrompting now e1
      else enterIdle now e1
  else
    let timeToIdle := e1.deadlineAtMs - now
    if 0 < timeToIdle then
      ({ e1 with timer := some ⟨TimerTarget.toIdle, now, timeToIdle⟩ }, [])
    else enterIdle now e1

/-- reset: clear the timer, recompute both deadlines from now, record
lastActiveAtMs, set state to active, fire onActive when the previous state was
idle or prompting, and re-arm via scheduleNext("active"). -/
def reset (cfg : Config) (now : Int) (e : Engine) : Engine × List Notif :=
  let prevState := e.state
  let e1 := clearTimer e
  let e2 := { e1 with
    deadlineAtMs := now + cfg.timeoutMs
    promptAtMs := now + cfg.timeoutMs - cfg.promptBeforeIdleMs
    lastActiveAtMs := some now
    state := Phase.active }
  let activeNotifs : List Notif :=
    if prevState = Phase.idle ∨ prevState = Phase.prompting then [Notif.onActive]
    else []
  let p := scheduleNext cfg Phase.active now e2
  (p.1, activeNotifs ++ p.2)

/-- pause: no-op when already paused; otherwise clear the timer, snapshot
remainingOnPauseMs = max 0 (deadlineAtMs - now), record stateBeforePause, and
set state to paused. -/
def pause (now : Int) (e : Engine) : Engine × List Notif :=
  if e.state = Phase.paused then (e, [])
  else
    let e1 := clearTimer e
    let remaining := e1.deadlineAtMs - now
    ({ e1 with
        remainingOnPauseMs := max 0 remaining
        stateBeforePause := e1.state
        state := Phase.paused }, [])

/-- resume: no-op when not paused; otherwise recompute the deadlines from the
snapshot, record lastActiveAtMs, and branch: expired snapshot goes to idle,
a snapshot inside the prompt window (unless paused from idle) goes to
prompting with a timer for the whole snapshot, and anything else goes back to
active via scheduleNext("active"). -/
def resume (cfg : Config) (now : Int) (e : Engine) : Engine × List Notif :=
  if e.state ≠ Phase.paused then (e, [])
  else
    let remaining := e.remainingOnPauseMs
    let prevStateBeforePause := e.stateBeforePause
    let e1 := { e with
      deadlineAtMs := now + remaining
      promptAtMs := now + remaining - min cfg.promptBeforeIdleMs remaining
      lastActiveAtMs := some now }
    if remaining ≤ 0 then enterIdle now e1
    else if 0 < cfg.promptBeforeIdleMs ∧ remaining ≤ cfg.promptBeforeIdleMs ∧
        prevStateBeforePause ≠ Phase.idle then
      ({ e1 with
          state := Phase.prompting
          timer := some ⟨TimerTarget.toIdle, now, remaining⟩ }, [Notif.onPrompt])
    else
      let e2 := { e1 with state := Phase.active }
      scheduleNext cfg Phase.active now e2

/-- getRemainingTimeMs: remainingOnPauseMs while paused, 0 while idle,
max 0 (deadlineAtMs - now) otherwise. -/
def getRemainingTimeMs (now : Int) (e : Engine) : Int :=
  if e.state = Phase.paused then e.remainingOnPauseMs
  else if e.state = Phase.idle then 0
  else max 0 (e.deadlineAtMs - now)

/-- handleUserActivity: ignored while paused, otherwise reset. -/
def handleUserActivity (cfg : Config) (now : Int) (e : Engine) : Engine × List Notif :=
  if e.state = Phase.paused then (e, [])
  else reset cfg now e

/-- The pending setTimeout fires: its callback (enterPrompting or enterIdle)
runs at time now.  A fired timer is spent, so the stale handle is dropped first. -/
def fireTimer (now : Int) (e : Engine) : Engine × List Notif :=
  match e.timer with
  | none => (e, [])
  | some pt =>
    let e1 := { e with timer := none }
    match pt.target with
    | TimerTarget.toPrompting => enterPrompting now e1
    | TimerTarget.toIdle => enterIdle now e1

/-- getInitialState: paused when initiallyPaused or not startOnMount, else active. -/
def getInitialState (startOnMount initiallyPaused : Bool) : Phase :=
  if initiallyPaused ∨ ¬startOnMount then Phase.paused else Phase.active

/-- Engine construction: the initial values of the React state and refs
(remainingOnPauseMsRef starts at timeoutMs, deadlines at 0), followed by the
mount effect, which arms the timer only when startOnMount and not
initiallyPaused. -/
def initEngine (cfg : Config) (startOnMount initiallyPaused : Bool) (now : Int) :
    Engine × List Notif :=
  let e : Engine := {
    state := getInitialState startOnMount initiallyPaused
    timer := none
    deadlineAtMs := 0
    promptAtMs := 0
    remainingOnPauseMs := cfg.timeoutMs
    stateBeforePause := Phase.active
    lastActiveAtMs := if startOnMount ∧ ¬initiallyPaused then some now else none
    lastIdleAtMs := none }
  if startOnMount ∧ ¬initiallyPaused then
    let e1 := { e with
      deadlineAtMs := now + cfg.timeoutMs
      promptAtMs := now + cfg.timeoutMs - cfg.promptBeforeIdleMs }
    scheduleNext cfg Phase.active now e1
  else (e, [])

/-- The states an engine can be in: some construction followed by any sequence
of public operations and timer expiries at non-decreasing times.  A timer may
fire no earlier than the delay it was armed with. -/
inductive Reachable (cfg : Config) : Int → Engine → Prop where
  | init (som ip : Bool) (t0 : Int) :
      Reachable cfg t0 (initEngine cfg som ip t0).1
  | wait {t t' : Int} {e : Engine} (h : Reachable cfg t e) (hle : t ≤ t') :
      Reachable cfg t' e
  | doReset {t t' : Int} {e : Engine} (h : Reachable cfg t e) (hle : t ≤ t') :
      Reachable cfg t' (reset cfg t' e).1
  | doPause {t t' : Int} {e : Engine} (h : Reachable cfg t e) (hle : t ≤ t') :
      Reachable cfg t' (pause t' e).1
  | doResume {t t' : Int} {e : Engine} (h : Reachable cfg t e) (hle : t ≤ t') :
      Reachable cfg t' (resume cfg t' e).1
  | doActivity {t t' : Int} {e : Engine} (h : Reachable cfg t e) (hle : t ≤ t') :
      Reachable cfg t' (handleUserActivity cfg t' e).1
  | doFire {t t' : Int} {e : Engine} {pt : PendingTimer} (h : Reachable cfg t e)
      (hle : t ≤ t') (hpt : e.timer = some pt)
      (hfire : pt.armedAtMs + pt.delayMs ≤ t') :
      Reachable cfg t' (fireTimer t' e).1

/-- Well-formedness of a pending timer relative to the idle deadline: it was
armed with a positive delay, and a toIdle timer fires exactly at the deadline. -/
def TimerOk (deadline : Int) : Option PendingTimer → Prop
  | none => True
  | some pt => 0 < pt.delayMs ∧
      (pt.target = TimerTarget.toIdle → pt.armedAtMs + pt.delayMs = deadline)

/-- The reachability invariant: the pause snapshot is non-negative, the prompt
deadline never exceeds the idle deadline, an idle engine has a past deadline
and no pending timer, a pause taken from idle snapshots zero, and every
pending timer is well-formed. -/
def Inv (t : Int) (e : Engine) : Prop :=
  0 ≤ e.remainingOnPauseMs ∧
  e.promptAtMs ≤ e.deadlineAtMs ∧
  (e.state = Phase.idle → e.deadlineAtMs ≤ t ∧ e.timer = none) ∧
  (e.state = Phase.paused → e.stateBeforePause = Phase.idle →
    e.remainingOnPauseMs = 0) ∧
  TimerOk e.deadlineAtMs e.timer

/-! ### Branch equations for the operations -/

theorem pause_of_paused {e : Engine} (now : Int) (h : e.state = Phase.paused) :
    pause now e = (e, []) := by
  simp [pause, h]

theorem pause_of_running {e : Engine} (now : Int) (h : e.state ≠ Phase.paused) :
    pause now e =
      ({ e with
          timer := none
          remainingOnPauseMs := max 0 (e.deadlineAtMs - now)
          stateBeforePause := e.state
          state := Phase.paused }, []) := by
  simp [pause, clearTimer, h]

theorem resume_of_running {e : Engine} (cfg : Config) (now : Int)
    (h : e.state ≠ Phase.paused) :
    resume cfg now e = (e, []) := by
  simp [resume, h]

theorem resume_of_expired {e : Engine} (cfg : Config) (now : Int)
    (h : e.state = Phase.paused) (hr : e.remainingOnPauseMs ≤ 0) :
    resume cfg now e =
      ({ e with
          timer := none
          deadlineAtMs := now + e.remainingOnPauseMs
          promptAtMs := now + e.remainingOnPauseMs -
            min cfg.promptBeforeIdleMs e.remainingOnPauseMs
          lastActiveAtMs := some now
          state := Phase.idle
          lastIdleAtMs := some now }, [Notif.onIdle]) := by
  simp [resume, h, hr, enterIdle, clearTimer]

theorem resume_of_prompt_window {e : Engine} (cfg : Config) (now : Int)
    (h : e.state = Phase.paused) (hr : 0 < e.remainingOnPauseMs)
    (hpb : 0 < cfg.promptBeforeIdleMs)
    (hwin : e.remainingOnPauseMs ≤ cfg.promptBeforeIdleMs)
    (hprev : e.stateBeforePause ≠ Phase.idle) :
    resume cfg now e =
      ({ e with
          deadlineAtMs := now + e.remainingOnPauseMs
          promptAtMs := now
          lastActiveAtMs := some now
          state := Phase.prompting
          timer := some ⟨TimerTarget.toIdle, now, e.remainingOnPauseMs⟩ },
        [Notif.onPrompt]) := by
  have hmin : min cfg.promptBeforeIdleMs e.remainingOnPauseMs =
      e.remainingOnPauseMs := min_eq_right hwin
  simp [resume, h, hpb, hwin, hprev, hmin,
    show ¬e.remainingOnPauseMs ≤ 0 by omega, add_sub_cancel_right]

theorem resume_of_active {e : Engine} (cfg : Config) (now : Int)
    (h : e.state = Phase.paused) (hr : 0 < e.remainingOnPauseMs)
    (hc : ¬(0 < cfg.promptBeforeIdleMs ∧
      e.remainingOnPauseMs ≤ cfg.promptBeforeIdleMs ∧
      e.stateBeforePause ≠ Phase.idle)) :
    resume cfg now e =
      scheduleNext cfg Phase.active now
        { e with
            deadlineAtMs := now + e.remainingOnPauseMs
            promptAtMs := now + e.remainingOnPauseMs -
              min cfg.promptBeforeIdleMs e.remainingOnPauseMs
            lastActiveAtMs := some now
            state := Phase.active } := by
  simp [resume, h, hc, show ¬e.remainingOnPauseMs ≤ 0 by omega]

theorem scheduleNext_arm_prompt {e : Engine} (cfg : Config) (now : Int)
    (hpb : 0 < cfg.promptBeforeIdleMs) (ht : 0 < e.promptAtMs - now) :
    scheduleNext cfg Phase.active now e =
      ({ e with timer := some ⟨TimerTarget.toPrompting, now, e.promptAtMs - now⟩ },
        []) := by
  simp [scheduleNext, clearTimer, hpb, ht]

theorem scheduleNext_prompt_now {e : Engine} (cfg : Config) (now : Int)
    (hpb : 0 < cfg.promptBeforeIdleMs) (ht : e.promptAtMs - now ≤ 0)
    (hd : 0 < e.deadlineAtMs - now) :
    scheduleNext cfg Phase.active now e =
      ({ e with
          state := Phase.prompting
          timer := some ⟨TimerTarget.toIdle, now, e.deadlineAtMs - now⟩ },
        [Notif.onPrompt]) := by
  simp [scheduleNext, clearTimer, enterPrompting, hpb, not_lt.mpr ht, hd]

theorem scheduleNext_idle_now {e : Engine} (cfg : Config) (now : Int)
    (hpb : 0 < cfg.promptBeforeIdleMs) (ht : e.promptAtMs - now ≤ 0)
    (hd : e.deadlineAtMs - now ≤ 0) :
    scheduleNext cfg Phase.active now e =
      ({ e with timer := none, state := Phase.idle, lastIdleAtMs := some now },
        [Notif.onIdle]) := by
  simp [scheduleNext, clearTimer, enterPrompting, enterIdle, hpb,
    not_lt.mpr ht, not_lt.mpr hd]

theorem scheduleNext_arm_idle {e : Engine} (cfg : Config) (s : Phase) (now : Int)
    (hc : ¬(s = Phase.active ∧ 0 < cfg.promptBeforeIdleMs))
    (hd : 0 < e.deadlineAtMs - now) :
    scheduleNext cfg s now e =
      ({ e with timer := some ⟨TimerTarget.toIdle, now, e.deadlineAtMs - now⟩ },
        []) := by
  simp [scheduleNext, clearTimer, hc, hd]

theorem scheduleNext_idle_now_direct {e : Engine} (cfg : Config) (s : Phase)
    (now : Int) (hc : ¬(s = Phase.active ∧ 0 < cfg.promptBeforeIdleMs))
    (hd : e.deadlineAtMs - now ≤ 0) :
    scheduleNext cfg s now e =
      ({ e with timer := none, state := Phase.idle, lastIdleAtMs := some now },
        [Notif.onIdle]) := by
  simp [scheduleNext, clearTimer, enterIdle, hc, not_lt.mpr hd]

theorem enterPrompting_arm {e : Engine} (now : Int) (hd : 0 < e.deadlineAtMs - now) :
    enterPrompting now e =
      ({ e with
          state := Phase.prompting
          timer := some ⟨TimerTarget.toIdle, now, e.deadlineAtMs - now⟩ },
        [Notif.onPrompt]) := by
  simp [enterPrompting, hd]

theorem enterPrompting_past {e : Engine} (now : Int) (hd : e.deadlineAtMs - now ≤ 0) :
    enterPrompting now e =
      ({ e with timer := none, state := Phase.idle, lastIdleAtMs := some now },
        [Notif.onPrompt, Notif.onIdle]) := by
  simp [enterPrompting, enterIdle, clearTimer, not_lt.mpr hd]

/-! ### Preservation of the invariant -/

theorem inv_mono {t t' : Int} {e : Engine} (h : Inv t e) (hle : t ≤ t') :
    Inv t' e := by
  obtain ⟨h1, h2, h3, h4, h5⟩ := h
  exact ⟨h1, h2, fun hs => ⟨le_trans (h3 hs).1 hle, (h3 hs).2⟩, h4, h5⟩

theorem inv_scheduleNext {e : Engine} (cfg : Config) (now : Int)
    (hrem : 0 ≤ e.remainingOnPauseMs) (hple : e.promptAtMs ≤ e.deadlineAtMs)
    (hst : e.state = Phase.active) :
    Inv now (scheduleNext cfg Phase.active now e).1 := by
  by_cases hpb : 0 < cfg.promptBeforeIdleMs
  · by_cases ht : 0 < e.promptAtMs - now
    · rw [scheduleNext_arm_prompt cfg now hpb ht]
      exact ⟨hrem, hple, by simp [hst], by simp [hst], by simp [TimerOk, ht]⟩
    · by_cases hd : 0 < e.deadlineAtMs - now
      · rw [scheduleNext_prompt_now cfg now hpb (by omega) hd]
        refine ⟨hrem, hple, by simp, by simp, ?_⟩
        simp only [TimerOk]
        exact ⟨hd, fun _ => by omega⟩
      · rw [scheduleNext_idle_now cfg now hpb (by omega) (by omega)]
        exact ⟨hrem, hple, fun _ => ⟨by change e.deadlineAtMs ≤ now; omega, rfl⟩, by simp, by simp [TimerOk]⟩
  · have hc : ¬(Phase.active = Phase.active ∧ 0 < cfg.promptBeforeIdleMs) :=
      fun hco => hpb hco.2
    by_cases hd : 0 < e.deadlineAtMs - now
    · rw [scheduleNext_arm_idle cfg Phase.active now hc hd]
      refine ⟨hrem, hple, by simp [hst], by simp [hst], ?_⟩
      simp only [TimerOk]
      exact ⟨hd, fun _ => by omega⟩
    · rw [scheduleNext_idle_now_direct cfg Phase.active now hc (by omega)]
      exact ⟨hrem, hple, fun _ => ⟨by change e.deadlineAtMs ≤ now; omega, rfl⟩, by simp, by simp [TimerOk]⟩

theorem inv_reset {e : Engine} (cfg : Config) (now : Int) (hv : cfg.valid)
    (hrem : 0 ≤ e.remainingOnPauseMs) :
    Inv now (reset cfg now e).1 := by
  obtain ⟨hT, hpb0, hlt⟩ := hv
  have hre : (reset cfg now e).1 =
      (scheduleNext cfg Phase.active now
        { e with
            timer := none
            deadlineAtMs := now + cfg.timeoutMs
            promptAtMs := now + cfg.timeoutMs - cfg.promptBeforeIdleMs
            lastActiveAtMs := some now
            state := Phase.active }).1 := rfl
  rw [hre]
  exact inv_scheduleNext cfg now hrem (by simp; omega) rfl

theorem inv_pause {t now : Int} {e : Engine} (hinv : Inv t e) (hle : t ≤ now) :
    Inv now (pause now e).1 := by
  obtain ⟨h1, h2, h3, h4, h5⟩ := hinv
  by_cases h : e.state = Phase.paused
  · rw [pause_of_paused now h]
    exact inv_mono ⟨h1, h2, h3, h4, h5⟩ hle
  · rw [pause_of_running now h]
    refine ⟨le_max_left _ _, h2, by simp, ?_, by simp [TimerOk]⟩
    intro _ hsb
    simp only at hsb
    have hdl := (h3 hsb).1
    simp only
    omega

theorem inv_enterIdle {now : Int} {e : Engine} (h1 : 0 ≤ e.remainingOnPauseMs)
    (h2 : e.promptAtMs ≤ e.deadlineAtMs) (hd : e.deadlineAtMs ≤ now) :
    Inv now (enterIdle now e).1 :=
  ⟨h1, h2, fun _ => ⟨hd, rfl⟩, by simp [enterIdle, clearTimer],
    by simp [enterIdle, clearTimer, TimerOk]⟩

theorem inv_enterPrompting {now : Int} {e : Engine}
    (h1 : 0 ≤ e.remainingOnPauseMs) (h2 : e.promptAtMs ≤ e.deadlineAtMs) :
    Inv now (enterPrompting now e).1 := by
  by_cases hd : 0 < e.deadlineAtMs - now
  · rw [enterPrompting_arm now hd]
    refine ⟨h1, h2, by simp, by simp, ?_⟩
    simp only [TimerOk]
    exact ⟨hd, fun _ => by omega⟩
  · rw [enterPrompting_past now (by omega)]
    exact ⟨h1, h2, fun _ => ⟨by change e.deadlineAtMs ≤ now; omega, rfl⟩, by simp, by simp [TimerOk]⟩

theorem inv_resume {t now : Int} {e : Engine} (cfg : Config) (hv : cfg.valid)
    (hinv : Inv t e) (hle : t ≤ now) :
    Inv now (resume cfg now e).1 := by
  obtain ⟨hT, hpb0, hlt⟩ := hv
  obtain ⟨h1, h2, h3, h4, h5⟩ := hinv
  by_cases h : e.state = Phase.paused
  · by_cases hr : e.remainingOnPauseMs ≤ 0
    · rw [resume_of_expired cfg now h hr]
      refine ⟨h1, by simp; omega, fun _ => ⟨by simp; omega, rfl⟩, by simp,
        by simp [TimerOk]⟩
    · by_cases hwin : 0 < cfg.promptBeforeIdleMs ∧
        e.remainingOnPauseMs ≤ cfg.promptBeforeIdleMs ∧
        e.stateBeforePause ≠ Phase.idle
      · rw [resume_of_prompt_window cfg now h (by omega) hwin.1 hwin.2.1 hwin.2.2]
        refine ⟨h1, by simp; omega, by simp, by simp, ?_⟩
        simp only [TimerOk]
        exact ⟨by omega, fun _ => by simp⟩
      · rw [resume_of_active cfg now h (by omega) hwin]
        exact inv_scheduleNext cfg now h1 (by simp; omega) rfl
  · rw [resume_of_running cfg now h]
    exact inv_mono ⟨h1, h2, h3, h4, h5⟩ hle

theorem inv_handleUserActivity {t now : Int} {e : Engine} (cfg : Config)
    (hv : cfg.valid) (hinv : Inv t e) (hle : t ≤ now) :
    Inv now (handleUserActivity cfg now e).1 := by
  by_cases hp : e.state = Phase.paused
  · rw [show handleUserActivity cfg now e = (e, []) from by
      simp [handleUserActivity, hp]]
    exact inv_mono hinv hle
  · rw [show handleUserActivity cfg now e = reset cfg now e from by
      simp [handleUserActivity, hp]]
    exact inv_reset cfg now hv hinv.1

theorem inv_fireTimer {t now : Int} {e : Engine} {pt : PendingTimer}
    (hinv : Inv t e) (hpt : e.timer = some pt)
    (hfire : pt.armedAtMs + pt.delayMs ≤ now) :
    Inv now (fireTimer now e).1 := by
  obtain ⟨h1, h2, h3, h4, h5⟩ := hinv
  rw [hpt] at h5
  simp only [TimerOk] at h5
  have hfe : fireTimer now e =
      match pt.target with
      | TimerTarget.toPrompting => enterPrompting now { e with timer := none }
      | TimerTarget.toIdle => enterIdle now { e with timer := none } := by
    simp [fireTimer, hpt]
  rw [hfe]
  cases htg : pt.target
  · exact inv_enterPrompting h1 h2
  · have hdl : e.deadlineAtMs ≤ now := by
      have := h5.2 htg
      omega
    exact inv_enterIdle h1 h2 hdl

theorem inv_initEngine (cfg : Config) (som ip : Bool) (now : Int)
    (hv : cfg.valid) :
    Inv now (initEngine cfg som ip now).1 := by
  obtain ⟨hT, hpb0, hlt⟩ := hv
  by_cases h : som = true ∧ ip = false
  · have hi : initEngine cfg som ip now =
        scheduleNext cfg Phase.active now
          { state := Phase.active
            timer := none
            deadlineAtMs := now + cfg.timeoutMs
            promptAtMs := now + cfg.timeoutMs - cfg.promptBeforeIdleMs
            remainingOnPauseMs := cfg.timeoutMs
            stateBeforePause := Phase.active
            lastActiveAtMs := some now
            lastIdleAtMs := none } := by
      simp [initEngine, getInitialState, h.1, h.2]
    rw [hi]
    exact inv_scheduleNext cfg now (by simp; omega) (by simp; omega) rfl
  · have hi : initEngine cfg som ip now =
        ({ state := Phase.paused
           timer := none
           deadlineAtMs := 0
           promptAtMs := 0
           remainingOnPauseMs := cfg.timeoutMs
           stateBeforePause := Phase.active
           lastActiveAtMs := none
           lastIdleAtMs := none }, []) := by
      cases som <;> cases ip <;> simp_all [initEngine, getInitialState]
    rw [hi]
    exact ⟨by simp; omega, by simp, by simp, by simp, by simp [TimerOk]⟩

/-- Every reachable state of a validly configured engine satisfies the
reachability invariant. -/
theorem reachable_inv {cfg : Config} {t : Int} {e : Engine} (hv : cfg.valid)
    (h : Reachable cfg t e) : Inv t e := by
  induction h with
  | init som ip t0 => exact inv_initEngine cfg som ip t0 hv
  | wait h hle ih => exact inv_mono ih hle
  | doReset h hle ih => exact inv_reset cfg _ hv ih.1
  | doPause h hle ih => exact inv_pause ih hle
  | doResume h hle ih => exact inv_resume cfg hv ih hle
  | doActivity h hle ih => exact inv_handleUserActivity cfg hv ih hle
  | doFire h hle hpt hfire ih => exact inv_fireTimer ih hpt hfire

/-! ### Component facts used by the claim theorems -/

theorem scheduleNext_fst_deadline (cfg : Config) (s : Phase) (now : Int)
    (e : Engine) : (scheduleNext cfg s now e).1.deadlineAtMs = e.deadlineAtMs := by
  simp only [scheduleNext, clearTimer, enterPrompting, enterIdle]
  split_ifs <;> rfl

theorem scheduleNext_fst_promptAt (cfg : Config) (s : Phase) (now : Int)
    (e : Engine) : (scheduleNext cfg s now e).1.promptAtMs = e.promptAtMs := by
  simp only [scheduleNext, clearTimer, enterPrompting, enterIdle]
  split_ifs <;> rfl

theorem scheduleNext_fst_lastActive (cfg : Config) (s : Phase) (now : Int)
    (e : Engine) :
    (scheduleNext cfg s now e).1.lastActiveAtMs = e.lastActiveAtMs := by
  simp only [scheduleNext, clearTimer, enterPrompting, enterIdle]
  split_ifs <;> rfl

theorem scheduleNext_fst_rem (cfg : Config) (s : Phase) (now : Int)
    (e : Engine) :
    (scheduleNext cfg s now e).1.remainingOnPauseMs = e.remainingOnPauseMs := by
  simp only [scheduleNext, clearTimer, enterPrompting, enterIdle]
  split_ifs <;> rfl

theorem scheduleNext_snd_no_onActive (cfg : Config) (s : Phase) (now : Int)
    (e : Engine) : Notif.onActive ∉ (scheduleNext cfg s now e).2 := by
  simp only [scheduleNext, clearTimer, enterPrompting, enterIdle]
  split_ifs <;> simp

theorem reset_fst_eq (cfg : Config) (now : Int) (e : Engine) :
    (reset cfg now e).1 =
      (scheduleNext cfg Phase.active now
        { e with
            timer := none
            deadlineAtMs := now + cfg.timeoutMs
            promptAtMs := now + cfg.timeoutMs - cfg.promptBeforeIdleMs
            lastActiveAtMs := some now
            state := Phase.active }).1 := rfl

theorem reset_snd_eq (cfg : Config) (now : Int) (e : Engine) :
    (reset cfg now e).2 =
      (if e.state = Phase.idle ∨ e.state = Phase.prompting then [Notif.onActive]
        else []) ++
      (scheduleNext cfg Phase.active now
        { e with
            timer := none
            deadlineAtMs := now + cfg.timeoutMs
            promptAtMs := now + cfg.timeoutMs - cfg.promptBeforeIdleMs
            lastActiveAtMs := some now
            state := Phase.active }).2 := rfl

theorem initEngine_paused (cfg : Config) (som ip : Bool) (now : Int)
    (h : ip = true ∨ som = false) :
    initEngine cfg som ip now =
      ({ state := Phase.paused
         timer := none
         deadlineAtMs := 0
         promptAtMs := 0
         remainingOnPauseMs := cfg.timeoutMs
         stateBeforePause := Phase.active
         lastActiveAtMs := none
         lastIdleAtMs := none }, []) := by
  cases som <;> cases ip <;> simp_all [initEngine, getInitialState]

/-- The resume branch that returns to Active, fully evaluated: it applies when
the snapshot is positive and either prompting is disabled or the snapshot
exceeds the prompt window (and the engine had not paused from idle). -/
theorem resume_to_active {e : Engine} (cfg : Config) (now : Int)
    (h : e.state = Phase.paused) (hr : 0 < e.remainingOnPauseMs)
    (hpb : cfg.promptBeforeIdleMs = 0 ∨
      cfg.promptBeforeIdleMs < e.remainingOnPauseMs) :
    resume cfg now e =
      ({ e with
          deadlineAtMs := now + e.remainingOnPauseMs
          promptAtMs := now + e.remainingOnPauseMs - cfg.promptBeforeIdleMs
          lastActiveAtMs := some now
          state := Phase.active
          timer := some (if 0 < cfg.promptBeforeIdleMs then
              ⟨TimerTarget.toPrompting, now,
                e.remainingOnPauseMs - cfg.promptBeforeIdleMs⟩
            else ⟨TimerTarget.toIdle, now, e.remainingOnPauseMs⟩) }, []) := by
  have hmin : min cfg.promptBeforeIdleMs e.remainingOnPauseMs =
      cfg.promptBeforeIdleMs := by omega
  have hc : ¬(0 < cfg.promptBeforeIdleMs ∧
      e.remainingOnPauseMs ≤ cfg.promptBeforeIdleMs ∧
      e.stateBeforePause ≠ Phase.idle) := by
    rintro ⟨hpb1, hle1, -⟩
    omega
  rw [resume_of_active cfg now h hr hc]
  by_cases hpbz : 0 < cfg.promptBeforeIdleMs
  · rw [scheduleNext_arm_prompt cfg now hpbz
      (by simp; omega)]
    simp [hmin, hpbz]
    all_goals omega
  · rw [scheduleNext_arm_idle cfg Phase.active now (fun hco => hpbz hco.2)
      (by simp; omega)]
    simp [hmin, hpbz]

/-! ### The claims -/

/-- C4: onActivityPulse (handleUserActivity) is a no-op in phase Paused, and in
every other phase it produces exactly the same state change, notifications and
timer arming as a call to reset. -/
theorem claim4_handleUserActivity_is_reset (cfg : Config) (now : Int)
    (e : Engine) :
    handleUserActivity cfg now e =
      if e.state = Phase.paused then (e, []) else reset cfg now e := rfl

/-- C5: construction raises a configuration error if and only if timeoutMs ≤ 0,
promptBeforeIdleMs < 0 or promptBeforeIdleMs ≥ timeoutMs; equivalently,
validation succeeds exactly on valid configurations.  The runtime operations
reset, pause, resume and handleUserActivity are total functions of the
embedding (they have no error outcome), so under a valid configuration nothing
else can raise. -/
theorem claim5_construction_error_iff (c : Config) :
    ((∃ msg, validateOptions c = Except.error msg) ↔
      (c.timeoutMs ≤ 0 ∨ c.promptBeforeIdleMs < 0 ∨
        c.timeoutMs ≤ c.promptBeforeIdleMs)) ∧
    (validateOptions c = Except.ok () ↔ c.valid) := by
  unfold validateOptions Config.valid
  split_ifs with h1 h2 h3 <;> simp_all

/-- C8: reset emits the onActive notification exactly when the phase
immediately before the call was idle or prompting, and it always sets
deadlineAtMs to now + timeoutMs (in particular, reset from active emits no
onActive while still resetting the deadline). -/
theorem claim8_reset_onActive_iff (cfg : Config) (now : Int) (e : Engine) :
    (Notif.onActive ∈ (reset cfg now e).2 ↔
      (e.state = Phase.idle ∨ e.state = Phase.prompting)) ∧
    (reset cfg now e).1.deadlineAtMs = now + cfg.timeoutMs := by
  constructor
  · rw [reset_snd_eq, List.mem_append]
    have hno := scheduleNext_snd_no_onActive cfg Phase.active now
      { e with
          timer := none
          deadlineAtMs := now + cfg.timeoutMs
          promptAtMs := now + cfg.timeoutMs - cfg.promptBeforeIdleMs
          lastActiveAtMs := some now
          state := Phase.active }
    split_ifs with h <;> simp [hno, h]
  · rw [reset_fst_eq, scheduleNext_fst_deadline]

/-- C3 counterexample: resume from a reachable paused state with an expired
snapshot (timeoutMs 10000, paused exactly at the deadline) results in phase
idle, yet lastActiveAtMs is overwritten with the resume time (20000) instead
of keeping its prior value (0): the claim that it is left unchanged when the
resulting phase is idle is false. -/
theorem claim3_counterexample :
    (pause 10000 (initEngine ⟨10000, 0⟩ true false 0).1).1.state = Phase.paused ∧
    (pause 10000 (initEngine ⟨10000, 0⟩ true false 0).1).1.lastActiveAtMs =
      some 0 ∧
    (resume ⟨10000, 0⟩ 20000
        (pause 10000 (initEngine ⟨10000, 0⟩ true false 0).1).1).1.state =
      Phase.idle ∧
    (resume ⟨10000, 0⟩ 20000
        (pause 10000 (initEngine ⟨10000, 0⟩ true false 0).1).1).1.lastActiveAtMs =
      some 20000 := by decide

/-- C3 amended: in every branch of resume from a paused state, lastActiveAtMs
is set to now, including when the resulting phase is idle (the source records
it unconditionally before branching on the snapshot). -/
theorem claim3_resume_sets_lastActive (cfg : Config) (now : Int) (e : Engine)
    (h : e.state = Phase.paused) :
    (resume cfg now e).1.lastActiveAtMs = some now := by
  by_cases hr : e.remainingOnPauseMs ≤ 0
  · rw [resume_of_expired cfg now h hr]
  · by_cases hwin : 0 < cfg.promptBeforeIdleMs ∧
      e.remainingOnPauseMs ≤ cfg.promptBeforeIdleMs ∧
      e.stateBeforePause ≠ Phase.idle
    · rw [resume_of_prompt_window cfg now h (by omega) hwin.1 hwin.2.1 hwin.2.2]
    · rw [resume_of_active cfg now h (by omega) hwin,
        scheduleNext_fst_lastActive]

/-- Witness for the amended C3: resuming a concrete paused engine stamps
lastActiveAtMs with the resume time. -/
theorem claim3_resume_sets_lastActive_witness :
    (resume ⟨10000, 0⟩ 5
        ⟨Phase.paused, none, 10000, 10000, 0, Phase.active, some 0, none⟩).1.lastActiveAtMs =
      some 5 :=
  claim3_resume_sets_lastActive ⟨10000, 0⟩ 5
    ⟨Phase.paused, none, 10000, 10000, 0, Phase.active, some 0, none⟩ (by decide)

theorem scheduleNext_timer_pos (cfg : Config) (s : Phase) (now : Int)
    (e : Engine) :
    ∀ pt, (scheduleNext cfg s now e).1.timer = some pt → 0 < pt.delayMs := by
  intro pt hpt
  by_cases hc : s = Phase.active ∧ 0 < cfg.promptBeforeIdleMs
  · obtain ⟨hs, hpb⟩ := hc
    subst hs
    by_cases ht : 0 < e.promptAtMs - now
    · rw [scheduleNext_arm_prompt cfg now hpb ht] at hpt
      simp only [Option.some.injEq] at hpt
      subst hpt
      exact ht
    · by_cases hd : 0 < e.deadlineAtMs - now
      · rw [scheduleNext_prompt_now cfg now hpb (by omega) hd] at hpt
        simp only [Option.some.injEq] at hpt
        subst hpt
        exact hd
      · rw [scheduleNext_idle_now cfg now hpb (by omega) (by omega)] at hpt
        simp at hpt
  · by_cases hd : 0 < e.deadlineAtMs - now
    · rw [scheduleNext_arm_idle cfg s now hc hd] at hpt
      simp only [Option.some.injEq] at hpt
      subst hpt
      exact hd
    · rw [scheduleNext_idle_now_direct cfg s now hc (by omega)] at hpt
      simp at hpt

theorem enterPrompting_timer_pos (now : Int) (e : Engine) :
    ∀ pt, (enterPrompting now e).1.timer = some pt → 0 < pt.delayMs := by
  intro pt hpt
  by_cases hd : 0 < e.deadlineAtMs - now
  · rw [enterPrompting_arm now hd] at hpt
    simp only [Option.some.injEq] at hpt
    subst hpt
    exact hd
  · rw [enterPrompting_past now (by omega)] at hpt
    simp at hpt

theorem resume_timer_pos (cfg : Config) (now : Int) (e : Engine)
    (h : e.state = Phase.paused) :
    ∀ pt, (resume cfg now e).1.timer = some pt → 0 < pt.delayMs := by
  intro pt hpt
  by_cases hr : e.remainingOnPauseMs ≤ 0
  · rw [resume_of_expired cfg now h hr] at hpt
    simp at hpt
  · by_cases hwin : 0 < cfg.promptBeforeIdleMs ∧
      e.remainingOnPauseMs ≤ cfg.promptBeforeIdleMs ∧
      e.stateBeforePause ≠ Phase.idle
    · rw [resume_of_prompt_window cfg now h (by omega) hwin.1 hwin.2.1
        hwin.2.2] at hpt
      simp only [Option.some.injEq] at hpt
      subst hpt
      simp only
      omega
    · rw [resume_of_active cfg now h (by omega) hwin] at hpt
      exact scheduleNext_timer_pos cfg Phase.active now _ pt hpt

/-- C9: no code path arms a timer with a non-positive delay.  Every timer in
the result of scheduleNext, enterPrompting or resume (the three arm sites) has
a positive delay, and whenever a computed delay is non-positive the
corresponding transition happens immediately: enterPrompting past the deadline
goes straight to idle with no timer, and scheduleNext past the prompt time
enters prompting at once (or idle when the idle deadline has also passed), in
each case leaving no timer armed. -/
theorem claim9_no_nonpositive_arm (cfg : Config) (s : Phase) (now : Int)
    (e : Engine) :
    (∀ pt, (scheduleNext cfg s now e).1.timer = some pt → 0 < pt.delayMs) ∧
    (∀ pt, (enterPrompting now e).1.timer = some pt → 0 < pt.delayMs) ∧
    (e.state = Phase.paused → ∀ pt, (resume cfg now e).1.timer = some pt →
      0 < pt.delayMs) ∧
    (e.deadlineAtMs - now ≤ 0 →
      (enterPrompting now e).1.state = Phase.idle ∧
      (enterPrompting now e).1.timer = none) ∧
    (s = Phase.active → 0 < cfg.promptBeforeIdleMs → e.promptAtMs - now ≤ 0 →
      0 < e.deadlineAtMs - now →
      (scheduleNext cfg s now e).1.state = Phase.prompting) ∧
    (s = Phase.active → 0 < cfg.promptBeforeIdleMs → e.promptAtMs - now ≤ 0 →
      e.deadlineAtMs - now ≤ 0 →
      (scheduleNext cfg s now e).1.state = Phase.idle ∧
      (scheduleNext cfg s now e).1.timer = none) ∧
    (¬(s = Phase.active ∧ 0 < cfg.promptBeforeIdleMs) →
      e.deadlineAtMs - now ≤ 0 →
      (scheduleNext cfg s now e).1.state = Phase.idle ∧
      (scheduleNext cfg s now e).1.timer = none) := by
  refine ⟨scheduleNext_timer_pos cfg s now e, enterPrompting_timer_pos now e,
    resume_timer_pos cfg now e, ?_, ?_, ?_, ?_⟩
  · intro hd
    rw [enterPrompting_past now hd]
    exact ⟨rfl, rfl⟩
  · intro hs hpb ht hd
    subst hs
    rw [scheduleNext_prompt_now cfg now hpb ht hd]
  · intro hs hpb ht hd
    subst hs
    rw [scheduleNext_idle_now cfg now hpb ht hd]
    exact ⟨rfl, rfl⟩
  · intro hc hd
    rw [scheduleNext_idle_now_direct cfg s now hc hd]
    exact ⟨rfl, rfl⟩

/-- Witness for C9: a concrete engine one millisecond past its deadline enters
idle immediately when enterPrompting runs, with no timer armed. -/
theorem claim9_no_nonpositive_arm_witness :
    (enterPrompting 10001
        ⟨Phase.active, none, 10000, 7000, 10000, Phase.active, some 0, none⟩).1.state =
      Phase.idle ∧
    (enterPrompting 10001
        ⟨Phase.active, none, 10000, 7000, 10000, Phase.active, some 0, none⟩).1.timer =
      none :=
  (claim9_no_nonpositive_arm ⟨10000, 3000⟩ Phase.active 10001
    ⟨Phase.active, none, 10000, 7000, 10000, Phase.active, some 0, none⟩).2.2.2.1
    (by decide)

/-- C1: the three branches of resume from a reachable paused state, with
snapshot r = remainingOnPauseMs.  r ≤ 0 goes directly to idle, records
lastIdleAtMs = now and arms no timer; 0 < r ≤ promptBeforeIdleMs with
prompting enabled and not paused from idle goes to prompting with a single
timer of exactly r ms firing the idle transition; otherwise the engine
returns to active with deadlineAtMs = now + r and
promptAtMs = now + r - promptBeforeIdleMs, re-armed per the scheduling
policy. -/
theorem claim1_resume_branches {cfg : Config} {now : Int} {e : Engine}
    (hv : cfg.valid) (hre : Reachable cfg now e) (hp : e.state = Phase.paused) :
    (e.remainingOnPauseMs ≤ 0 →
      (resume cfg now e).1.state = Phase.idle ∧
      (resume cfg now e).1.lastIdleAtMs = some now ∧
      (resume cfg now e).1.timer = none) ∧
    (0 < e.remainingOnPauseMs → 0 < cfg.promptBeforeIdleMs →
      e.remainingOnPauseMs ≤ cfg.promptBeforeIdleMs →
      e.stateBeforePause ≠ Phase.idle →
      (resume cfg now e).1.state = Phase.prompting ∧
      (resume cfg now e).1.timer =
        some ⟨TimerTarget.toIdle, now, e.remainingOnPauseMs⟩) ∧
    (0 < e.remainingOnPauseMs →
      ¬(0 < cfg.promptBeforeIdleMs ∧
        e.remainingOnPauseMs ≤ cfg.promptBeforeIdleMs ∧
        e.stateBeforePause ≠ Phase.idle) →
      (resume cfg now e).1.state = Phase.active ∧
      (resume cfg now e).1.deadlineAtMs = now + e.remainingOnPauseMs ∧
      (resume cfg now e).1.promptAtMs =
        now + e.remainingOnPauseMs - cfg.promptBeforeIdleMs ∧
      (resume cfg now e).1.timer =
        some (if 0 < cfg.promptBeforeIdleMs then
            ⟨TimerTarget.toPrompting, now,
              e.remainingOnPauseMs - cfg.promptBeforeIdleMs⟩
          else ⟨TimerTarget.toIdle, now, e.remainingOnPauseMs⟩)) := by
  have hpp := (reachable_inv hv hre).2.2.2.1
  obtain ⟨hT, hpb0, hlt⟩ := hv
  refine ⟨?_, ?_, ?_⟩
  · intro hr
    rw [resume_of_expired cfg now hp hr]
    exact ⟨rfl, rfl, rfl⟩
  · intro hr hpb hwin hprev
    rw [resume_of_prompt_window cfg now hp hr hpb hwin hprev]
    exact ⟨rfl, rfl⟩
  · intro hr hc
    have hprev : ¬e.stateBeforePause = Phase.idle := fun hid => by
      have := hpp hp hid
      omega
    have hpb : cfg.promptBeforeIdleMs = 0 ∨
        cfg.promptBeforeIdleMs < e.remainingOnPauseMs := by
      by_cases h1 : 0 < cfg.promptBeforeIdleMs
      · right
        by_contra hle
        exact hc ⟨h1, by omega, hprev⟩
      · left
        omega
    rw [resume_to_active cfg now hp hr hpb]
    exact ⟨rfl, rfl, rfl, rfl⟩

/-- Witness for C1: resuming a concrete engine constructed paused
(startOnMount false) with the full 10000 ms snapshot lands in active with the
prompt deadline 3000 ms before the idle deadline. -/
theorem claim1_resume_branches_witness :
    (resume ⟨10000, 3000⟩ 0 (initEngine ⟨10000, 3000⟩ false false 0).1).1.state =
      Phase.active ∧
    (resume ⟨10000, 3000⟩ 0
        (initEngine ⟨10000, 3000⟩ false false 0).1).1.promptAtMs = 7000 := by
  have h := (@claim1_resume_branches ⟨10000, 3000⟩ 0
      (initEngine ⟨10000, 3000⟩ false false 0).1
      (by decide) (Reachable.init false false 0) (by decide)).2.2
      (by decide) (by decide)
  refine ⟨h.1, ?_⟩
  rw [h.2.2.1]
  decide

/-- C2: from any reachable non-paused state, pause immediately followed by
resume at the same instant restores getRemainingTimeMs exactly. -/
theorem claim2_pause_resume_roundtrip {cfg : Config} {now : Int} {e : Engine}
    (hv : cfg.valid) (hre : Reachable cfg now e) (hnp : e.state ≠ Phase.paused) :
    getRemainingTimeMs now (resume cfg now (pause now e).1).1 =
      getRemainingTimeMs now e := by
  obtain ⟨h1, h2, h3, h4, h5⟩ := reachable_inv hv hre
  obtain ⟨hT, hpb0, hlt⟩ := hv
  rw [pause_of_running now hnp]
  by_cases hi : e.state = Phase.idle
  · have hdl := (h3 hi).1
    rw [resume_of_expired cfg now (by rfl)
      (show max 0 (e.deadlineAtMs - now) ≤ 0 by omega)]
    simp [getRemainingTimeMs, hi]
  · by_cases hm : e.deadlineAtMs - now ≤ 0
    · rw [resume_of_expired cfg now (by rfl)
        (show max 0 (e.deadlineAtMs - now) ≤ 0 by omega)]
      simp [getRemainingTimeMs, hnp, hi]
      omega
    · by_cases hwin : max 0 (e.deadlineAtMs - now) ≤ cfg.promptBeforeIdleMs ∧
        0 < cfg.promptBeforeIdleMs
      · rw [resume_of_prompt_window cfg now (by rfl)
          (show 0 < max 0 (e.deadlineAtMs - now) by omega) hwin.2 hwin.1 hi]
        simp [getRemainingTimeMs, hnp, hi]
      · have hpb : cfg.promptBeforeIdleMs = 0 ∨
            cfg.promptBeforeIdleMs < max 0 (e.deadlineAtMs - now) := by
          by_cases hpbz : 0 < cfg.promptBeforeIdleMs
          · have hgt : ¬max 0 (e.deadlineAtMs - now) ≤ cfg.promptBeforeIdleMs :=
              fun hle => hwin ⟨hle, hpbz⟩
            right
            omega
          · left
            omega
        rw [resume_to_active cfg now (by rfl)
          (show 0 < max 0 (e.deadlineAtMs - now) by omega) hpb]
        simp [getRemainingTimeMs, hnp, hi]

/-- Witness for C2: the round trip on an engine freshly started active at
time 0 restores its remaining time. -/
theorem claim2_pause_resume_roundtrip_witness :
    getRemainingTimeMs 0
        (resume ⟨10000, 3000⟩ 0
          (pause 0 (initEngine ⟨10000, 3000⟩ true false 0).1).1).1 =
      getRemainingTimeMs 0 (initEngine ⟨10000, 3000⟩ true false 0).1 :=
  claim2_pause_resume_roundtrip (by decide) (Reachable.init true false 0)
    (by decide)

/-- C6: in every reachable state getRemainingTimeMs is non-negative, and it
returns remainingOnPauseMs while paused, 0 while idle, and
max 0 (deadlineAtMs - now) otherwise. -/
theorem claim6_remaining_nonneg {cfg : Config} {t : Int} {e : Engine}
    (hv : cfg.valid) (hre : Reachable cfg t e) :
    0 ≤ getRemainingTimeMs t e ∧
    (e.state = Phase.paused → getRemainingTimeMs t e = e.remainingOnPauseMs) ∧
    (e.state = Phase.idle → getRemainingTimeMs t e = 0) ∧
    (e.state ≠ Phase.paused → e.state ≠ Phase.idle →
      getRemainingTimeMs t e = max 0 (e.deadlineAtMs - t)) := by
  have h1 := (reachable_inv hv hre).1
  refine ⟨?_, ?_, ?_, ?_⟩
  · unfold getRemainingTimeMs
    split_ifs <;> omega
  · intro h
    simp [getRemainingTimeMs, h]
  · intro h
    simp [getRemainingTimeMs, h]
  · intro h h2
    simp [getRemainingTimeMs, h, h2]

/-- Witness for C6: the remaining time of a freshly mounted active engine is
non-negative. -/
theorem claim6_remaining_nonneg_witness :
    0 ≤ getRemainingTimeMs 0 (initEngine ⟨10000, 3000⟩ true false 0).1 :=
  (claim6_remaining_nonneg (by decide) (Reachable.init true false 0)).1

/-- C7: in every reachable state that is not paused (so both deadlines are
meaningful), promptAtMs ≤ deadlineAtMs. -/
theorem claim7_promptAt_le_deadline {cfg : Config} {t : Int} {e : Engine}
    (hv : cfg.valid) (hre : Reachable cfg t e)
    (_hnp : e.state ≠ Phase.paused) :
    e.promptAtMs ≤ e.deadlineAtMs :=
  (reachable_inv hv hre).2.1

/-- Witness for C7: on a freshly mounted active engine the prompt deadline is
at or before the idle deadline. -/
theorem claim7_promptAt_le_deadline_witness :
    (initEngine ⟨10000, 3000⟩ true false 0).1.promptAtMs ≤
      (initEngine ⟨10000, 3000⟩ true false 0).1.deadlineAtMs :=
  claim7_promptAt_le_deadline (by decide) (Reachable.init true false 0)
    (by decide)

/-- C10: an engine constructed in the paused phase (initiallyPaused, or not
startOnMount) reports getRemainingTimeMs = timeoutMs before any operation,
because remainingOnPauseMs is initialized to timeoutMs, and its first resume
starts a full-length countdown in phase active. -/
theorem claim10_initial_paused (cfg : Config) (som ip : Bool) (t0 now : Int)
    (hv : cfg.valid) (h : ip = true ∨ som = false) :
    getRemainingTimeMs t0 (initEngine cfg som ip t0).1 = cfg.timeoutMs ∧
    (resume cfg now (initEngine cfg som ip t0).1).1.state = Phase.active ∧
    (resume cfg now (initEngine cfg som ip t0).1).1.deadlineAtMs =
      now + cfg.timeoutMs ∧
    getRemainingTimeMs now (resume cfg now (initEngine cfg som ip t0).1).1 =
      cfg.timeoutMs := by
  obtain ⟨hT, hpb0, hlt⟩ := hv
  simp only [initEngine_paused cfg som ip t0 h]
  have hres := resume_to_active cfg now
    (e := { state := Phase.paused, timer := none, deadlineAtMs := 0,
            promptAtMs := 0, remainingOnPauseMs := cfg.timeoutMs,
            stateBeforePause := Phase.active, lastActiveAtMs := none,
            lastIdleAtMs := none })
    rfl hT (Or.inr hlt)
  rw [hres]
  refine ⟨by simp [getRemainingTimeMs], rfl, rfl, ?_⟩
  simp [getRemainingTimeMs]
  omega

/-- Witness for C10: a concrete engine built with startOnMount false reports
the full 10000 ms and resumes at time 500 into active. -/
theorem claim10_initial_paused_witness :
    getRemainingTimeMs 0 (initEngine ⟨10000, 3000⟩ false false 0).1 = 10000 ∧
    (resume ⟨10000, 3000⟩ 500
        (initEngine ⟨10000, 3000⟩ false false 0).1).1.state = Phase.active :=
  ⟨(claim10_initial_paused ⟨10000, 3000⟩ false false 0 500 (by decide)
      (Or.inr rfl)).1,
    (claim10_initial_paused ⟨10000, 3000⟩ false false 0 500 (by decide)
      (Or.inr rfl)).2.1⟩

end IdleTimer
